import Mathlib

/-!
Verification development for the Wikipedia search-engine core
(`src/Wiki_Search_Engine-PySpark.ipynb`).

The notebook builds a hashed TF-IDF index over a corpus of token lists and
answers a query by extracting the first hashed bucket of the query vector,
scoring every document at that bucket, zipping the scores with the titles,
sorting by score descending and taking the first `K` results.

The index-build pipeline is
  `hashingTF = HashingTF(B)`; `tf = hashingTF.transform(documents)`;
  `idf = IDF(minDocFreq).fit(tf)`; `tfidf = idf.transform(tf)`
and the query path is
  `QueryTF = hashingTF.transform(query)`;
  `b0 = QueryTF.indices[0]`;
  `scores = tfidf.map(lambda x: x[b0])`;
  `zippedResults = scores.zip(titles)`;
  `zippedResults.sortByKey(ascending=False).take(K)`.

Documents are identified by their position in the corpus (the line index),
which is the stable document ID; the zip with `titles` pairs each score with
the document at the same position, so we carry the position itself.  Floating
point weights are idealised as real numbers.  `sortByKey` on a deterministic
local run is a stable sort on the key alone, which we embed as a stable
insertion sort descending on the score.
-/

/-- A token is an opaque string unit produced by preprocessing. -/
abbrev Token := String

/-- Modelled from the spec: the hash function inside Spark's `HashingTF` is
not part of `src/`; the spec requires only a deterministic, stateless pure
function of the token.  We use a 32-bit polynomial string hash. -/
def stringHash (t : Token) : Nat :=
  t.data.foldl (fun a c => (31 * a + c.toNat) % 4294967296) 0

/-- Modelled from the spec: deterministic token-to-bucket map of the Hashing
Vectorizer, a pure function of `(token, B)` with range `[0, B)`. -/
def bucket (B : Nat) (t : Token) : Nat :=
  stringHash t % B

/-- Insert one occurrence of bucket `b` into a sparse count vector kept as an
index-sorted association list (the `indices`/`values` arrays of a Spark
`SparseVector`, indices ascending). -/
def insertToken (b : Nat) : List (Nat × Nat) → List (Nat × Nat)
  | [] => [(b, 1)]
  | (i, c) :: rest =>
    if b < i then (b, 1) :: (i, c) :: rest
    else if b = i then (i, c + 1) :: rest
    else (i, c) :: insertToken b rest

/-- Modelled from the spec: `hashingTF.transform` of one token sequence — the
sparse term-frequency vector whose value at bucket `b` is the number of
tokens hashing to `b`, indices ascending.  Used identically for documents
and for queries, as in the source. -/
def termCounts (B : Nat) (doc : List Token) : List (Nat × Nat) :=
  doc.foldl (fun acc t => insertToken (bucket B t) acc) []

/-- Value of a sparse vector at bucket `b` (`SparseVector.__getitem__`:
absent buckets read as 0). -/
def lookupV {α : Type} [AddCommMonoid α] (v : List (Nat × α)) (b : Nat) : α :=
  (v.map (fun e => if e.1 = b then e.2 else 0)).sum

/-- Modelled from the spec: per-group partial document frequency — the number
of documents in the group whose term-frequency vector is non-zero at `b`
(each document contributes its bucket-presence set exactly once). -/
def dfOf (B : Nat) (group : List (List Token)) (b : Nat) : Nat :=
  (group.map (fun d => if lookupV (termCounts B d) b = 0 then 0 else 1)).sum

/-- Modelled from the spec: merge of two partial document-frequency vectors,
the pointwise sum of contributing-document counts. -/
def dfMerge (f g : Nat → Nat) : Nat → Nat :=
  fun b => f b + g b

/-- The all-zero document-frequency vector, the unit of `dfMerge`. -/
def dfZero : Nat → Nat :=
  fun _ => 0

/-- Modelled from the spec: the smoothed IDF formula, defined and finite even
at `df = 0` by using `N + 1` and `df + 1`. -/
noncomputable def idfRaw (N df : Nat) : ℝ :=
  Real.log (((N : ℝ) + 1) / ((df : ℝ) + 1))

/-- Modelled from the spec: the IDF weight — the smoothed formula, thresholded
so that any bucket with `df < minDocFreq` is forced to weight 0. -/
noncomputable def idfValue (mdf N df : Nat) : ℝ :=
  if df < mdf then 0 else idfRaw N df

/-- Modelled from the spec: `IDF(minDocFreq).fit(tf)` — the global IDF vector
of a corpus, from its document-frequency vector and its size `N`. -/
noncomputable def idfFit (B mdf : Nat) (corpus : List (List Token)) : Nat → ℝ :=
  fun b => idfValue mdf corpus.length (dfOf B corpus b)

/-- Modelled from the spec: `idf.transform` of one term-frequency vector —
scale elementwise by the IDF vector, retaining only buckets with non-zero
result (zero entries are dropped, never stored). -/
noncomputable def idfTransform (idf : Nat → ℝ) (v : List (Nat × Nat)) : List (Nat × ℝ) :=
  v.filterMap (fun e =>
    if (e.2 : ℝ) * idf e.1 = 0 then none else some (e.1, (e.2 : ℝ) * idf e.1))

/-- Engine configuration: bucket count `B`, IDF threshold, and result size
`K`.  The notebook instantiates these as `20000000`, `10` and `10`; the spec
treats them as configuration. -/
structure SearchConfig where
  B : Nat
  minDocFreq : Nat
  K : Nat

/-- The persisted TF-IDF vector of one document of the corpus. -/
noncomputable def tfidfVec (cfg : SearchConfig) (corpus : List (List Token))
    (doc : List Token) : List (Nat × ℝ) :=
  idfTransform (idfFit cfg.B cfg.minDocFreq corpus) (termCounts cfg.B doc)

/-- Failure of the query path: `QueryTF.indices[0]` raises `IndexError` when
the query vector has no indices. -/
inductive QueryError
  | indexError
deriving DecidableEq

/-- The per-document scores of a query, as the source computes them:
`QueryHashValue = QueryTF.indices[0]` and
`QueryRelevance = tfidf.map(lambda x: x[QueryHashValue])`; an empty query
vector makes `indices[0]` fail. -/
noncomputable def queryScores (cfg : SearchConfig) (corpus : List (List Token))
    (q : List Token) : Except QueryError (List ℝ) :=
  match termCounts cfg.B q with
  | [] => Except.error QueryError.indexError
  | (b0, _) :: _ =>
      Except.ok (corpus.map (fun d => lookupV (tfidfVec cfg corpus d) b0))

/-- Stable descending insertion on the key (the score): the element goes in
front of the first entry whose key is not larger, so equal keys keep their
original relative order — the behaviour of `sortByKey(ascending=False)` on a
deterministic local run. -/
noncomputable def insertDesc (p : ℝ × Nat) : List (ℝ × Nat) → List (ℝ × Nat)
  | [] => [p]
  | q :: qs => if q.1 ≤ p.1 then p :: q :: qs else q :: insertDesc p qs

/-- Stable sort descending by key, embedding `sortByKey(ascending=False)`. -/
noncomputable def sortDesc : List (ℝ × Nat) → List (ℝ × Nat)
  | [] => []
  | x :: xs => insertDesc x (sortDesc xs)

/-- The full query path of the source: score every document at the first
query bucket, zip the scores with the document IDs (the positions the titles
are zipped by), sort by score descending, take the first `K`. -/
noncomputable def queryResults (cfg : SearchConfig) (corpus : List (List Token))
    (q : List Token) : Except QueryError (List (ℝ × Nat)) :=
  (queryScores cfg corpus q).map
    (fun scores => (sortDesc (scores.zip (List.range corpus.length))).take cfg.K)

/-- The ranking order the spec asks of result lists: score strictly larger
first, and on equal scores the smaller document ID first. -/
def resOrder (p q : ℝ × Nat) : Prop :=
  q.1 < p.1 ∨ (p.1 = q.1 ∧ p.2 < q.2)

/-- The spec's query score, stated in the spec's own words: the sparse dot
product of the query vector with the document's TF-IDF vector over every
bucket present in the query vector.  Named apart from the source's score to
compare the two. -/
noncomputable def specDotScore (cfg : SearchConfig) (corpus : List (List Token))
    (q : List Token) (doc : List Token) : ℝ :=
  ((termCounts cfg.B q).map
    (fun e => (e.2 : ℝ) * lookupV (tfidfVec cfg corpus doc) e.1)).sum

/-- Modelled from the spec: the configuration surface of section 6 uses
integer options so that the rejected ranges `B ≤ 0`, `K ≤ 0`,
`minDocFreq < 0` are expressible. -/
structure Config where
  B : Int
  K : Int
  minDocFreq : Int

/-- Modelled from the spec: the error taxonomy of section 7. -/
inductive EngineError
  | configurationError
  | emptyCorpusError
  | indexError
deriving DecidableEq

/-- Modelled from the spec: a build call validates its configuration before
any document processing and rejects an empty corpus, otherwise persisting the
TF-IDF vectors of the corpus. -/
noncomputable def buildChecked (c : Config) (corpus : List (List Token)) :
    Except EngineError (List (List (Nat × ℝ))) :=
  if c.B ≤ 0 ∨ c.K ≤ 0 ∨ c.minDocFreq < 0 then Except.error EngineError.configurationError
  else if corpus.isEmpty then Except.error EngineError.emptyCorpusError
  else Except.ok (corpus.map (tfidfVec ⟨c.B.toNat, c.minDocFreq.toNat, c.K.toNat⟩ corpus))

/-- Modelled from the spec: a query call validates its configuration before
any query processing, then runs the source's query path. -/
noncomputable def queryChecked (c : Config) (corpus : List (List Token))
    (q : List Token) : Except EngineError (List (ℝ × Nat)) :=
  if c.B ≤ 0 ∨ c.K ≤ 0 ∨ c.minDocFreq < 0 then Except.error EngineError.configurationError
  else (queryResults ⟨c.B.toNat, c.minDocFreq.toNat, c.K.toNat⟩ corpus q).mapError
    (fun _ => EngineError.indexError)

theorem lookupV_nil {α : Type} [AddCommMonoid α] (b : Nat) :
    lookupV ([] : List (Nat × α)) b = 0 := rfl

theorem lookupV_cons {α : Type} [AddCommMonoid α] (e : Nat × α)
    (v : List (Nat × α)) (b : Nat) :
    lookupV (e :: v) b = (if e.1 = b then e.2 else 0) + lookupV v b := by
  simp [lookupV]

theorem lookupV_insertToken (b x : Nat) (l : List (Nat × Nat)) :
    lookupV (insertToken b l) x = (if b = x then 1 else 0) + lookupV l x := by
  induction l with
  | nil => simp [insertToken, lookupV_cons, lookupV_nil]
  | cons e rest ih =>
    obtain ⟨i, c⟩ := e
    by_cases hbi : b < i
    · simp [insertToken, hbi, lookupV_cons]
    · by_cases hbe : b = i
      · subst hbe
        simp [insertToken, hbi, lookupV_cons]
        by_cases hx : b = x <;> simp [hx] <;> omega
      · simp only [insertToken, if_neg hbi, if_neg hbe, lookupV_cons, ih]
        ring

theorem lookupV_termCounts (B x : Nat) (doc : List Token) :
    lookupV (termCounts B doc) x = (doc.map (bucket B)).count x := by
  suffices h : ∀ (acc : List (Nat × Nat)),
      lookupV (doc.foldl (fun acc t => insertToken (bucket B t) acc) acc) x =
        lookupV acc x + (doc.map (bucket B)).count x by
    simpa [termCounts, lookupV_nil] using h []
  induction doc with
  | nil => simp
  | cons t rest ih =>
    intro acc
    simp only [List.foldl_cons, ih, lookupV_insertToken, List.map_cons, List.count_cons]
    by_cases hx : bucket B t = x <;> simp [hx] <;> omega

theorem mem_fst_insertToken (b x : Nat) (l : List (Nat × Nat)) :
    x ∈ (insertToken b l).map Prod.fst ↔ x = b ∨ x ∈ l.map Prod.fst := by
  induction l with
  | nil => simp [insertToken]
  | cons e rest ih =>
    obtain ⟨i, c⟩ := e
    by_cases hbi : b < i
    · simp [insertToken, hbi]
    · by_cases hbe : b = i
      · subst hbe
        simp [insertToken, hbi]
      · simp only [insertToken, if_neg hbi, if_neg hbe, List.map_cons, List.mem_cons, ih]
        tauto

theorem mem_fst_termCounts (B x : Nat) (doc : List Token) :
    x ∈ (termCounts B doc).map Prod.fst ↔ x ∈ doc.map (bucket B) := by
  suffices h : ∀ (acc : List (Nat × Nat)),
      x ∈ (doc.foldl (fun acc t => insertToken (bucket B t) acc) acc).map Prod.fst ↔
        x ∈ acc.map Prod.fst ∨ x ∈ doc.map (bucket B) by
    simpa [termCounts] using h []
  induction doc with
  | nil => simp
  | cons t rest ih =>
    intro acc
    rw [List.foldl_cons, ih, mem_fst_insertToken]
    simp only [List.map_cons, List.mem_cons]
    tauto

theorem lookupV_eq_zero_of_not_mem {α : Type} [AddCommMonoid α]
    (v : List (Nat × α)) (b : Nat) (h : b ∉ v.map Prod.fst) :
    lookupV v b = 0 := by
  induction v with
  | nil => rfl
  | cons e rest ih =>
    simp only [List.map_cons, List.mem_cons] at h
    push_neg at h
    rw [lookupV_cons, if_neg (fun he => h.1 he.symm), ih h.2, zero_add]

theorem idfTransform_cons_zero (idf : Nat → ℝ) (e : Nat × Nat)
    (v : List (Nat × Nat)) (hz : (e.2 : ℝ) * idf e.1 = 0) :
    idfTransform idf (e :: v) = idfTransform idf v := by
  simp only [idfTransform, List.filterMap_cons, if_pos hz]

theorem idfTransform_cons_ne_zero (idf : Nat → ℝ) (e : Nat × Nat)
    (v : List (Nat × Nat)) (hz : (e.2 : ℝ) * idf e.1 ≠ 0) :
    idfTransform idf (e :: v) =
      (e.1, (e.2 : ℝ) * idf e.1) :: idfTransform idf v := by
  simp only [idfTransform, List.filterMap_cons, if_neg hz]

theorem lookupV_idfTransform (idf : Nat → ℝ) (v : List (Nat × Nat)) (b : Nat) :
    lookupV (idfTransform idf v) b = ((lookupV v b : Nat) : ℝ) * idf b := by
  induction v with
  | nil => simp [idfTransform, lookupV_nil]
  | cons e rest ih =>
    by_cases hz : (e.2 : ℝ) * idf e.1 = 0
    · rw [idfTransform_cons_zero idf e rest hz, ih, lookupV_cons]
      by_cases hb : e.1 = b
      · subst hb
        push_cast
        rw [add_mul, if_pos rfl, hz, zero_add]
      · simp [hb]
    · rw [idfTransform_cons_ne_zero idf e rest hz, lookupV_cons, ih, lookupV_cons]
      by_cases hb : e.1 = b
      · subst hb
        simp only [if_pos rfl]
        push_cast
        ring
      · simp [hb]

theorem mem_idfTransform (idf : Nat → ℝ) (v : List (Nat × Nat)) (e : Nat × ℝ)
    (h : e ∈ idfTransform idf v) :
    ∃ a ∈ v, e = (a.1, (a.2 : ℝ) * idf a.1) ∧ (a.2 : ℝ) * idf a.1 ≠ 0 := by
  rw [idfTransform, List.mem_filterMap] at h
  obtain ⟨a, ha, hfa⟩ := h
  by_cases hz : (a.2 : ℝ) * idf a.1 = 0
  · rw [if_pos hz] at hfa
    exact absurd hfa (by simp)
  · rw [if_neg hz] at hfa
    exact ⟨a, ha, by injection hfa with h'; exact h'.symm, hz⟩

theorem lookupV_nonneg (v : List (Nat × ℝ)) (b : Nat)
    (h : ∀ e ∈ v, 0 ≤ e.2) : 0 ≤ lookupV v b := by
  apply List.sum_nonneg
  intro x hx
  rw [List.mem_map] at hx
  obtain ⟨e, he, hex⟩ := hx
  subst hex
  by_cases hb : e.1 = b
  · simpa [hb] using h e he
  · simp [hb]

theorem dfOf_le_length (B : Nat) (corpus : List (List Token)) (b : Nat) :
    dfOf B corpus b ≤ corpus.length := by
  calc dfOf B corpus b
      ≤ (corpus.map (fun _ => 1)).sum := by
        apply List.sum_le_sum
        intro i _
        split <;> omega
    _ = corpus.length := by simp

theorem idfRaw_pos_arg (N df : Nat) : 0 < ((N : ℝ) + 1) / ((df : ℝ) + 1) := by
  positivity

theorem idfRaw_nonneg (N df : Nat) (h : df ≤ N) : 0 ≤ idfRaw N df := by
  apply Real.log_nonneg
  rw [le_div_iff₀ (by positivity), one_mul]
  have : (df : ℝ) ≤ (N : ℝ) := by exact_mod_cast h
  linarith

theorem idfRaw_anti (N d1 d2 : Nat) (h : d1 ≤ d2) : idfRaw N d2 ≤ idfRaw N d1 := by
  apply Real.log_le_log (idfRaw_pos_arg N d2)
  have h2 : (d1 : ℝ) ≤ (d2 : ℝ) := by exact_mod_cast h
  gcongr

theorem idfValue_eq_zero (mdf N df : Nat) (h : df < mdf) :
    idfValue mdf N df = 0 := by
  rw [idfValue, if_pos h]

theorem idfValue_nonneg (mdf N df : Nat) (h : df ≤ N) :
    0 ≤ idfValue mdf N df := by
  rw [idfValue]
  split
  · exact le_refl 0
  · exact idfRaw_nonneg N df h

theorem idfFit_nonneg (B mdf : Nat) (corpus : List (List Token)) (b : Nat) :
    0 ≤ idfFit B mdf corpus b :=
  idfValue_nonneg mdf corpus.length (dfOf B corpus b) (dfOf_le_length B corpus b)

theorem tfidfVec_lookup (cfg : SearchConfig) (corpus : List (List Token))
    (d : List Token) (b : Nat) :
    lookupV (tfidfVec cfg corpus d) b =
      ((lookupV (termCounts cfg.B d) b : Nat) : ℝ) * idfFit cfg.B cfg.minDocFreq corpus b :=
  lookupV_idfTransform _ _ b

theorem tfidfVec_entry_nonneg (cfg : SearchConfig) (corpus : List (List Token))
    (d : List Token) (e : Nat × ℝ) (h : e ∈ tfidfVec cfg corpus d) : 0 ≤ e.2 := by
  obtain ⟨a, _, he, _⟩ := mem_idfTransform _ _ _ h
  subst he
  exact mul_nonneg (by positivity) (idfFit_nonneg cfg.B cfg.minDocFreq corpus a.1)

theorem tfidfVec_entry_ne_zero (cfg : SearchConfig) (corpus : List (List Token))
    (d : List Token) (e : Nat × ℝ) (h : e ∈ tfidfVec cfg corpus d) : e.2 ≠ 0 := by
  obtain ⟨a, _, he, hz⟩ := mem_idfTransform _ _ _ h
  subst he
  exact hz

theorem insertDesc_perm (p : ℝ × Nat) (l : List (ℝ × Nat)) :
    (insertDesc p l).Perm (p :: l) := by
  induction l with
  | nil => exact List.Perm.refl _
  | cons q qs ih =>
    rw [insertDesc]
    split
    · exact List.Perm.refl _
    · exact (ih.cons q).trans (List.Perm.swap p q qs)

theorem sortDesc_perm (l : List (ℝ × Nat)) : (sortDesc l).Perm l := by
  induction l with
  | nil => exact List.Perm.refl _
  | cons x xs ih =>
    rw [sortDesc]
    exact (insertDesc_perm x (sortDesc xs)).trans (ih.cons x)

theorem resOrder_key_le (p q : ℝ × Nat) (h : resOrder p q) : q.1 ≤ p.1 := by
  rcases h with h | ⟨h, _⟩
  · exact le_of_lt h
  · exact le_of_eq h.symm

theorem pairwise_insertDesc (p : ℝ × Nat) (l : List (ℝ × Nat))
    (hl : List.Pairwise resOrder l) (hid : ∀ y ∈ l, p.2 < y.2) :
    List.Pairwise resOrder (insertDesc p l) := by
  induction l with
  | nil => simp [insertDesc, List.Pairwise.nil]
  | cons q qs ih =>
    rw [List.pairwise_cons] at hl
    rw [insertDesc]
    split
    · rename_i hq
      rw [List.pairwise_cons]
      constructor
      · intro y hy
        rcases List.mem_cons.mp hy with hy | hy
        · subst hy
          rcases lt_or_eq_of_le hq with h | h
          · exact Or.inl h
          · exact Or.inr ⟨h.symm, hid y (List.mem_cons_self y qs)⟩
        · have hyq : y.1 ≤ q.1 := resOrder_key_le q y (hl.1 y hy)
          rcases lt_or_eq_of_le (le_trans hyq hq) with h | h
          · exact Or.inl h
          · exact Or.inr ⟨h.symm, hid y (List.mem_cons_of_mem q hy)⟩
      · exact List.pairwise_cons.mpr hl
    · rename_i hq
      rw [List.pairwise_cons]
      constructor
      · intro y hy
        rcases List.mem_cons.mp ((insertDesc_perm p qs).mem_iff.mp hy) with hy' | hy'
        · subst hy'
          exact Or.inl (lt_of_not_le hq)
        · exact hl.1 y hy'
      · exact ih hl.2 (fun y hy => hid y (List.mem_cons_of_mem q hy))

theorem pairwise_sortDesc (l : List (ℝ × Nat))
    (h : List.Pairwise (fun a b => a.2 < b.2) l) :
    List.Pairwise resOrder (sortDesc l) := by
  induction l with
  | nil => simp [sortDesc]
  | cons x xs ih =>
    rw [List.pairwise_cons] at h
    rw [sortDesc]
    apply pairwise_insertDesc x (sortDesc xs) (ih h.2)
    intro y hy
    exact h.1 y ((sortDesc_perm xs).mem_iff.mp hy)

theorem pairwise_zip_snd {α : Type} (l₁ : List α) (l₂ : List Nat)
    (h : List.Pairwise (· < ·) l₂) :
    List.Pairwise (fun a b => a.2 < b.2) (l₁.zip l₂) := by
  induction l₁ generalizing l₂ with
  | nil => simp
  | cons x xs ih =>
    cases l₂ with
    | nil => simp
    | cons y ys =>
      rw [List.pairwise_cons] at h
      rw [List.zip_cons_cons, List.pairwise_cons]
      constructor
      · intro p hp
        exact h.1 p.2 (List.of_mem_zip hp).2
      · exact ih ys h.2

theorem pairwise_zip_range {α : Type} (l : List α) (n : Nat) :
    List.Pairwise (fun a b => a.2 < b.2) (l.zip (List.range n)) :=
  pairwise_zip_snd l (List.range n) (List.pairwise_lt_range n)

theorem queryScores_nil (cfg : SearchConfig) (corpus : List (List Token))
    (q : List Token) (h : termCounts cfg.B q = []) :
    queryScores cfg corpus q = Except.error QueryError.indexError := by
  rw [queryScores, h]

theorem queryScores_cons (cfg : SearchConfig) (corpus : List (List Token))
    (q : List Token) (b0 c : Nat) (rest : List (Nat × Nat))
    (h : termCounts cfg.B q = (b0, c) :: rest) :
    queryScores cfg corpus q =
      Except.ok (corpus.map (fun d => lookupV (tfidfVec cfg corpus d) b0)) := by
  rw [queryScores, h]

theorem queryResults_cons (cfg : SearchConfig) (corpus : List (List Token))
    (q : List Token) (b0 c : Nat) (rest : List (Nat × Nat))
    (h : termCounts cfg.B q = (b0, c) :: rest) :
    queryResults cfg corpus q =
      Except.ok ((sortDesc ((corpus.map
        (fun d => lookupV (tfidfVec cfg corpus d) b0)).zip
          (List.range corpus.length))).take cfg.K) := by
  rw [queryResults, queryScores_cons cfg corpus q b0 c rest h]
  rfl

theorem queryResults_nil (cfg : SearchConfig) (corpus : List (List Token))
    (q : List Token) (h : termCounts cfg.B q = []) :
    queryResults cfg corpus q = Except.error QueryError.indexError := by
  rw [queryResults, queryScores_nil cfg corpus q h]
  rfl

theorem dfOf_append (B : Nat) (l₁ l₂ : List (List Token)) (b : Nat) :
    dfOf B (l₁ ++ l₂) b = dfOf B l₁ b + dfOf B l₂ b := by
  rw [dfOf, dfOf, dfOf, List.map_append, List.sum_append]

theorem dfOf_perm (B : Nat) (l₁ l₂ : List (List Token)) (h : l₁.Perm l₂) :
    dfOf B l₁ = dfOf B l₂ := by
  funext b
  exact (h.map _).sum_eq

theorem foldr_dfMerge_flatten (B : Nat) (groups : List (List (List Token))) (b : Nat) :
    List.foldr dfMerge dfZero (groups.map (dfOf B)) b = dfOf B groups.flatten b := by
  induction groups with
  | nil => rfl
  | cons g gs ih =>
    rw [List.map_cons, List.foldr_cons, List.flatten_cons, dfOf_append]
    rw [dfMerge, ih]

theorem score_mem_of_res (cfg : SearchConfig) (corpus : List (List Token))
    (res : List (ℝ × Nat)) (p : ℝ × Nat)
    (b0 : Nat)
    (hres : res = (sortDesc ((corpus.map
      (fun d => lookupV (tfidfVec cfg corpus d) b0)).zip
        (List.range corpus.length))).take cfg.K)
    (hp : p ∈ res) :
    ∃ d ∈ corpus, p.1 = lookupV (tfidfVec cfg corpus d) b0 := by
  subst hres
  have h1 := List.mem_of_mem_take hp
  have h2 := (sortDesc_perm _).mem_iff.mp h1
  obtain ⟨p1, p2⟩ := p
  have h3 := (List.of_mem_zip h2).1
  rw [List.mem_map] at h3
  obtain ⟨d, hd, hpd⟩ := h3
  exact ⟨d, hd, hpd.symm⟩

theorem queryResults_ok_inv (cfg : SearchConfig) (corpus : List (List Token))
    (q : List Token) (res : List (ℝ × Nat))
    (h : queryResults cfg corpus q = Except.ok res) :
    ∃ b0 c rest, termCounts cfg.B q = (b0, c) :: rest ∧
      res = (sortDesc ((corpus.map
        (fun d => lookupV (tfidfVec cfg corpus d) b0)).zip
          (List.range corpus.length))).take cfg.K := by
  rcases htc : termCounts cfg.B q with _ | ⟨⟨b0, c⟩, rest⟩
  · rw [queryResults_nil cfg corpus q htc] at h
    exact absurd h (by simp)
  · refine ⟨b0, c, rest, rfl, ?_⟩
    rw [queryResults_cons cfg corpus q b0 c rest htc] at h
    injection h with h'
    exact h'.symm

theorem emptyBucketRun (cfg : SearchConfig) (corpus : List (List Token))
    (q : List Token) (b0 c : Nat) (rest : List (Nat × Nat))
    (htc : termCounts cfg.B q = (b0, c) :: rest)
    (habs : ∀ t ∈ q, ∀ d ∈ corpus,
      lookupV (tfidfVec cfg corpus d) (bucket cfg.B t) = 0) :
    ∃ res, queryResults cfg corpus q = Except.ok res ∧
      res.length = min cfg.K corpus.length ∧ ∀ p ∈ res, p.1 = 0 := by
  have hb0 : ∃ t ∈ q, bucket cfg.B t = b0 := by
    have hmem : b0 ∈ (termCounts cfg.B q).map Prod.fst := by
      rw [htc]
      exact List.mem_cons_self b0 _
    rw [mem_fst_termCounts, List.mem_map] at hmem
    exact hmem
  obtain ⟨t, ht, hbt⟩ := hb0
  have hzero : ∀ d ∈ corpus, lookupV (tfidfVec cfg corpus d) b0 = 0 := by
    intro d hd
    rw [← hbt]
    exact habs t ht d hd
  refine ⟨_, queryResults_cons cfg corpus q b0 c rest htc, ?_, ?_⟩
  · rw [List.length_take, (sortDesc_perm _).length_eq, List.length_zip,
      List.length_map, List.length_range, min_self]
  · intro p hp
    obtain ⟨d, hd, hpd⟩ := score_mem_of_res cfg corpus _ p b0 rfl hp
    rw [hpd]
    exact hzero d hd

/-- C1: for every query against a fixed built index, a returned result list is
sorted by score descending, ties between equal-score documents broken by
document ID ascending, and re-running the identical query against the
identical index returns the identical ordered list. -/
theorem claim_C1 (cfg : SearchConfig) (corpus : List (List Token)) (q : List Token)
    (res : List (ℝ × Nat)) (h : queryResults cfg corpus q = Except.ok res) :
    List.Pairwise resOrder res ∧
    ∀ res₂, queryResults cfg corpus q = Except.ok res₂ → res₂ = res := by
  obtain ⟨b0, c, rest, htc, hres⟩ := queryResults_ok_inv cfg corpus q res h
  constructor
  · subst hres
    exact List.Pairwise.sublist (List.take_sublist _ _)
      (pairwise_sortDesc _ (pairwise_zip_range _ _))
  · intro res₂ h₂
    rw [h] at h₂
    injection h₂ with h'
    exact h'.symm

/-- C4: for every document and bucket, the persisted TF-IDF weight is the
term frequency times the IDF weight, and zero-weight buckets are dropped from
the stored sparse vector rather than stored as explicit zero entries. -/
theorem claim_C4 (cfg : SearchConfig) (corpus : List (List Token))
    (d : List Token) (b : Nat) :
    lookupV (tfidfVec cfg corpus d) b =
      ((lookupV (termCounts cfg.B d) b : Nat) : ℝ) *
        idfFit cfg.B cfg.minDocFreq corpus b ∧
    ∀ e ∈ tfidfVec cfg corpus d, e.2 ≠ 0 :=
  ⟨tfidfVec_lookup cfg corpus d b,
   fun e he => tfidfVec_entry_ne_zero cfg corpus d e he⟩

/-- C5: for every bucket whose document frequency is strictly below the
configured threshold, the fitted IDF weight is zero. -/
theorem claim_C5 (cfg : SearchConfig) (corpus : List (List Token)) (b : Nat)
    (h : dfOf cfg.B corpus b < cfg.minDocFreq) :
    idfFit cfg.B cfg.minDocFreq corpus b = 0 :=
  idfValue_eq_zero cfg.minDocFreq corpus.length (dfOf cfg.B corpus b) h

theorem claim_C5_witness :
    idfFit (SearchConfig.mk 10 10 10).B (SearchConfig.mk 10 10 10).minDocFreq
      [["a"], ["b"]] 7 = 0 :=
  claim_C5 (SearchConfig.mk 10 10 10) [["a"], ["b"]] 7 (by decide)

/-- C6: the smoothed IDF formula is the logarithm of an argument that is
positive (hence defined and finite) for every document frequency, including
zero, and is monotonically non-increasing in the document frequency. -/
theorem claim_C6 :
    (∀ N df : Nat, 0 < (((N : Nat) : ℝ) + 1) / (((df : Nat) : ℝ) + 1) ∧
      idfRaw N df = Real.log ((((N : Nat) : ℝ) + 1) / (((df : Nat) : ℝ) + 1))) ∧
    ∀ N d1 d2 : Nat, d1 < d2 → idfRaw N d2 ≤ idfRaw N d1 :=
  ⟨fun N df => ⟨idfRaw_pos_arg N df, rfl⟩,
   fun N d1 d2 h => idfRaw_anti N d1 d2 (le_of_lt h)⟩

theorem claim_C6_witness :
    (0 < (((5 : Nat) : ℝ) + 1) / (((0 : Nat) : ℝ) + 1)) ∧
    idfRaw 5 3 ≤ idfRaw 5 1 :=
  ⟨(claim_C6.1 5 0).1, claim_C6.2 5 1 3 (by norm_num)⟩

/-- C7: partitioning a fixed corpus into any groups and merging the partial
document-frequency vectors in any order yields the df vector and corpus size
of the whole corpus — the aggregation is commutative and associative. -/
theorem claim_C7 (B : Nat) (groups : List (List (List Token)))
    (corpus : List (List Token)) (h : groups.flatten.Perm corpus) :
    List.foldr dfMerge dfZero (groups.map (dfOf B)) = dfOf B corpus ∧
    (groups.map List.length).sum = corpus.length := by
  constructor
  · funext b
    rw [foldr_dfMerge_flatten, dfOf_perm B _ _ h]
  · rw [← List.length_flatten, h.length_eq]

theorem claim_C7_witness :
    List.foldr dfMerge dfZero ([[["a"]], [["b"]]].map (dfOf 10)) =
      dfOf 10 [["a"], ["b"]] ∧
    ([[["a"]], [["b"]]].map List.length).sum = ([["a"], ["b"]] : List (List Token)).length :=
  claim_C7 10 [[["a"]], [["b"]]] [["a"], ["b"]] (by decide)

/-- C8: every configuration with non-positive bucket count, non-positive
result size, or negative document-frequency threshold is rejected with a
configuration error by both the build and the query call, for every corpus
and query — so before any document or query processing starts. -/
theorem claim_C8 (c : Config) (h : c.B ≤ 0 ∨ c.K ≤ 0 ∨ c.minDocFreq < 0)
    (corpus : List (List Token)) (q : List Token) :
    buildChecked c corpus = Except.error EngineError.configurationError ∧
    queryChecked c corpus q = Except.error EngineError.configurationError := by
  constructor
  · rw [buildChecked, if_pos h]
  · rw [queryChecked, if_pos h]

theorem claim_C8_witness :
    buildChecked ⟨0, 10, 10⟩ [["a"]] = Except.error EngineError.configurationError ∧
    queryChecked ⟨0, 10, 10⟩ [["a"]] ["a"] = Except.error EngineError.configurationError :=
  claim_C8 ⟨0, 10, 10⟩ (Or.inl (by norm_num)) [["a"]] ["a"]

/-- C9: hashing a token with a fixed positive bucket count is a pure function
of the token and the bucket count with range within the bucket space, and
every document containing the token registers it at exactly the bucket the
query-side hashing produces for it. -/
theorem claim_C9 (B : Nat) (t : Token) (hB : 0 < B) :
    bucket B t < B ∧
    ∀ doc : List Token, t ∈ doc → bucket B t ∈ (termCounts B doc).map Prod.fst := by
  refine ⟨Nat.mod_lt _ hB, ?_⟩
  intro doc ht
  rw [mem_fst_termCounts]
  exact List.mem_map_of_mem (bucket B) ht

theorem claim_C9_witness :
    bucket 10 "a" < 10 ∧
    bucket 10 "a" ∈ (termCounts 10 ["x", "a"]).map Prod.fst :=
  ⟨(claim_C9 10 "a" (by norm_num)).1,
   (claim_C9 10 "a" (by norm_num)).2 ["x", "a"] (by decide)⟩

/-- C10: with corpus size at least one and a bucket whose document frequency
does not exceed the corpus size, the IDF weight is non-negative; every stored
TF-IDF entry is non-negative and every score a query assigns to a document is
non-negative. -/
theorem claim_C10 :
    (∀ mdf N df : Nat, 1 ≤ N → df ≤ N → 0 ≤ idfValue mdf N df) ∧
    (∀ (cfg : SearchConfig) (corpus : List (List Token)) (d : List Token)
      (e : Nat × ℝ), e ∈ tfidfVec cfg corpus d → 0 ≤ e.2) ∧
    (∀ (cfg : SearchConfig) (corpus : List (List Token)) (q : List Token)
      (res : List (ℝ × Nat)), queryResults cfg corpus q = Except.ok res →
        ∀ p ∈ res, 0 ≤ p.1) := by
  refine ⟨fun mdf N df _ h => idfValue_nonneg mdf N df h,
    fun cfg corpus d e he => tfidfVec_entry_nonneg cfg corpus d e he, ?_⟩
  intro cfg corpus q res h p hp
  obtain ⟨b0, c, rest, htc, hres⟩ := queryResults_ok_inv cfg corpus q res h
  obtain ⟨d, _, hpd⟩ := score_mem_of_res cfg corpus res p b0 hres hp
  rw [hpd]
  exact lookupV_nonneg _ _ (fun e he => tfidfVec_entry_nonneg cfg corpus d e he)

theorem claim_C10_witness : 0 ≤ idfValue 1 2 1 :=
  claim_C10.1 1 2 1 (by norm_num) (by norm_num)

theorem zeroScore_a :
    lookupV (tfidfVec (SearchConfig.mk 10 1 10) [["a"], ["b"]] ["a"]) 9 = 0 := by
  rw [tfidfVec_lookup]
  have h : lookupV (termCounts (SearchConfig.mk 10 1 10).B ["a"]) 9 = 0 := by decide
  rw [h]
  simp

theorem zeroScore_b :
    lookupV (tfidfVec (SearchConfig.mk 10 1 10) [["a"], ["b"]] ["b"]) 9 = 0 := by
  rw [tfidfVec_lookup]
  have h : lookupV (termCounts (SearchConfig.mk 10 1 10).B ["b"]) 9 = 0 := by decide
  rw [h]
  simp

theorem concreteRun :
    queryResults (SearchConfig.mk 10 1 10) [["a"], ["b"]] ["c"] =
      Except.ok [((0 : ℝ), 0), ((0 : ℝ), 1)] := by
  rw [queryResults_cons (SearchConfig.mk 10 1 10) [["a"], ["b"]] ["c"] 9 1 []
    (by decide)]
  have hmap : ([["a"], ["b"]] : List (List Token)).map
      (fun d => lookupV (tfidfVec (SearchConfig.mk 10 1 10) [["a"], ["b"]] d) 9) =
      [(0 : ℝ), 0] := by
    rw [List.map_cons, List.map_cons, List.map_nil, zeroScore_a, zeroScore_b]
  rw [hmap]
  have hrange : List.range ([["a"], ["b"]] : List (List Token)).length = [0, 1] := rfl
  rw [hrange]
  have hzip : ([(0 : ℝ), 0].zip [0, 1]) = [((0 : ℝ), 0), ((0 : ℝ), 1)] := rfl
  rw [hzip]
  have hsort : sortDesc [((0 : ℝ), 0), ((0 : ℝ), 1)] =
      [((0 : ℝ), 0), ((0 : ℝ), 1)] := by
    rw [sortDesc, sortDesc, sortDesc, insertDesc, insertDesc, if_pos (le_refl (0 : ℝ))]
  rw [hsort]
  rfl

theorem claim_C1_witness :
    List.Pairwise resOrder [((0 : ℝ), 0), ((0 : ℝ), 1)] :=
  (claim_C1 (SearchConfig.mk 10 1 10) [["a"], ["b"]] ["c"]
    [((0 : ℝ), 0), ((0 : ℝ), 1)] concreteRun).1

theorem zeroRun_habs : ∀ t ∈ (["c"] : List Token),
    ∀ d ∈ ([["a"], ["b"]] : List (List Token)),
    lookupV (tfidfVec (SearchConfig.mk 10 1 10) [["a"], ["b"]] d)
      (bucket (SearchConfig.mk 10 1 10).B t) = 0 := by
  intro t ht d hd
  fin_cases ht
  fin_cases hd
  · exact zeroScore_a
  · exact zeroScore_b

/-- C2 (amended): a query with at least one token, all of whose tokens map to
buckets at which every document's stored TF-IDF vector reads zero (buckets
absent from every document or filtered to IDF zero), returns without error a
ranked list of `min K N` documents all scored zero — not an empty list; a
query with no tokens instead fails on the index access. -/
theorem claim_C2 (cfg : SearchConfig) (corpus : List (List Token))
    (q : List Token) (b0 c : Nat) (rest : List (Nat × Nat))
    (htc : termCounts cfg.B q = (b0, c) :: rest)
    (habs : ∀ t ∈ q, ∀ d ∈ corpus,
      lookupV (tfidfVec cfg corpus d) (bucket cfg.B t) = 0) :
    ∃ res, queryResults cfg corpus q = Except.ok res ∧
      res.length = min cfg.K corpus.length ∧ ∀ p ∈ res, p.1 = 0 :=
  emptyBucketRun cfg corpus q b0 c rest htc habs

/-- C2 counterexample: the query `["c"]` maps to a bucket absent from every
document of the corpus `[["a"], ["b"]]`, yet the source's query path returns
the non-empty list of both documents with score zero, not an empty list. -/
theorem claim_C2_counterexample :
    queryResults (SearchConfig.mk 10 1 10) [["a"], ["b"]] ["c"] ≠
      Except.ok [] := by
  rw [concreteRun]
  simp

theorem claim_C2_witness :
    ∃ res, queryResults (SearchConfig.mk 10 1 10) [["a"], ["b"]] ["c"] =
      Except.ok res ∧
      res.length = min (SearchConfig.mk 10 1 10).K
        ([["a"], ["b"]] : List (List Token)).length ∧
      ∀ p ∈ res, p.1 = 0 :=
  claim_C2 (SearchConfig.mk 10 1 10) [["a"], ["b"]] ["c"] 9 1 []
    (by decide) zeroRun_habs

/-- C3 (amended): the score the source assigns to every document is the value
of its TF-IDF vector at the first (lowest) bucket of the query vector alone;
this agrees with the sparse dot product exactly in the degenerate case of a
query vector holding a single bucket with term frequency one. -/
theorem claim_C3 (cfg : SearchConfig) (corpus : List (List Token))
    (q : List Token) (b0 c : Nat) (rest : List (Nat × Nat))
    (htc : termCounts cfg.B q = (b0, c) :: rest) :
    queryScores cfg corpus q =
      Except.ok (corpus.map (fun d => lookupV (tfidfVec cfg corpus d) b0)) ∧
    (c = 1 → rest = [] →
      corpus.map (fun d => lookupV (tfidfVec cfg corpus d) b0) =
        corpus.map (specDotScore cfg corpus q)) := by
  refine ⟨queryScores_cons cfg corpus q b0 c rest htc, ?_⟩
  intro hc hrest
  subst hc
  subst hrest
  apply List.map_congr_left
  intro d _
  rw [specDotScore, htc]
  simp

/-- C3 counterexample: for the two-token query `["a", "a"]` against the corpus
`[["a"], ["b"]]`, the scores the source assigns are not the sparse dot
products: the source reads the TF-IDF value at the single first query bucket
and ignores the query-side term frequency 2. -/
theorem claim_C3_counterexample :
    queryScores (SearchConfig.mk 10 1 10) [["a"], ["b"]] ["a", "a"] ≠
      Except.ok (([["a"], ["b"]] : List (List Token)).map
        (specDotScore (SearchConfig.mk 10 1 10) [["a"], ["b"]] ["a", "a"])) := by
  intro h
  rw [queryScores_cons (SearchConfig.mk 10 1 10) [["a"], ["b"]] ["a", "a"] 7 2 []
    (by decide)] at h
  injection h with h'
  simp only [List.map_cons, List.map_nil] at h'
  injection h' with h0 h1
  have hidf : idfFit (SearchConfig.mk 10 1 10).B (SearchConfig.mk 10 1 10).minDocFreq
      [["a"], ["b"]] 7 = Real.log (3 / 2) := by
    have hdf : dfOf (SearchConfig.mk 10 1 10).B [["a"], ["b"]] 7 = 1 := by decide
    simp only [idfFit, hdf]
    rw [idfValue, if_neg (by norm_num), idfRaw]
    norm_num
  have hx : lookupV (tfidfVec (SearchConfig.mk 10 1 10) [["a"], ["b"]] ["a"]) 7 =
      Real.log (3 / 2) := by
    rw [tfidfVec_lookup,
      show lookupV (termCounts (SearchConfig.mk 10 1 10).B ["a"]) 7 = 1 from by decide,
      hidf]
    norm_num
  have hR : specDotScore (SearchConfig.mk 10 1 10) [["a"], ["b"]] ["a", "a"] ["a"] =
      2 * Real.log (3 / 2) := by
    rw [specDotScore,
      show termCounts (SearchConfig.mk 10 1 10).B ["a", "a"] = [(7, 2)] from by decide]
    simp [hx]
  rw [hx, hR] at h0
  have hpos : 0 < Real.log (3 / 2) := Real.log_pos (by norm_num)
  linarith

theorem claim_C3_witness :
    queryScores (SearchConfig.mk 10 1 10) [["a"], ["b"]] ["a"] =
      Except.ok (([["a"], ["b"]] : List (List Token)).map
        (fun d => lookupV (tfidfVec (SearchConfig.mk 10 1 10) [["a"], ["b"]] d) 7)) ∧
    ([["a"], ["b"]] : List (List Token)).map
        (fun d => lookupV (tfidfVec (SearchConfig.mk 10 1 10) [["a"], ["b"]] d) 7) =
      ([["a"], ["b"]] : List (List Token)).map
        (specDotScore (SearchConfig.mk 10 1 10) [["a"], ["b"]] ["a"]) :=
  ⟨(claim_C3 (SearchConfig.mk 10 1 10) [["a"], ["b"]] ["a"] 7 1 [] (by decide)).1,
   (claim_C3 (SearchConfig.mk 10 1 10) [["a"], ["b"]] ["a"] 7 1 [] (by decide)).2 rfl rfl⟩
